import Mathlib

/-!
Verification of the Activity Aggregation Engine and Calendar Range Resolver
of ghtimecardator (src/ghtimecardator.go), via a shallow embedding in Lean 4.

Conventions of the embedding:
* Go `time.Time` in a fixed-offset local calendar is modelled by `GoTime`,
  a pair of a day number (days since 1970-01-01 in the local calendar) and
  the seconds elapsed within that local day.  `time.Time.Weekday` (Sunday = 0)
  is `goWeekday`; 1970-01-01 was a Thursday, hence the `+ 4`.
* `time.Time.AddDate(0, 0, n)` shifts the civil date by `n` days and keeps
  the wall-clock time of day, which in this representation is `addDateDays`.
* `time.Date(y, m, d, 0, 0, 0, 0, loc)` normalizes the month into the year
  and the day linearly into the day count; `goDate` reproduces this through
  the standard civil-calendar conversion `daysFromCivil`.
* Go maps touched only through key lookup and key update are modelled as
  association lists (`lookupA` / `setA`).
* The OpenAI collaborator (`llm.Call` returning a possibly nil answer with
  the error discarded) is modelled as a function `String → String → Option String`.
-/

namespace GHTC

/-- Model of Go `time.Time` in a fixed-offset locale: `days` is the number of
days since 1970-01-01 of the local civil date, `sod` the seconds of the local
day. -/
structure GoTime where
  days : Int
  sod : Int
deriving DecidableEq, Repr

/-- Go `time.Time.Weekday`: Sunday = 0, Monday = 1, ..., Saturday = 6.
1970-01-01 (day 0) was a Thursday (= 4). -/
def goWeekday (t : GoTime) : Int := (t.days + 4) % 7

/-- Go `t.AddDate(0, 0, n)` in a fixed-offset locale: the civil date moves by
`n` days, the wall-clock time of day is kept. -/
def addDateDays (t : GoTime) (n : Int) : GoTime := ⟨t.days + n, t.sod⟩

/-- Days since 1970-01-01 of the civil date `(y, m, d)` with `1 ≤ m ≤ 12`;
the day `d` enters linearly, matching the day normalization of Go
`time.Date`.  Standard civil-from-days algorithm; `/` and `%` on `Int` are
Euclidean, which for the positive divisors used here is floor
division. -/
def daysFromCivil (y m d : Int) : Int :=
  let y2 := if m ≤ 2 then y - 1 else y
  let era := y2 / 400
  let yoe := y2 - era * 400
  let doy := (153 * (if m > 2 then m - 3 else m + 9) + 2) / 5 + d - 1
  let doe := yoe * 365 + yoe / 4 - yoe / 100 + doy
  era * 146097 + doe - 719468

/-- Civil date `(y, m, d)` of the day numbered `z` (days since 1970-01-01);
inverse of `daysFromCivil`.  Used for Go `t.Year()` and `t.Month()`. -/
def civilFromDays (z0 : Int) : Int × Int × Int :=
  let z := z0 + 719468
  let era := z / 146097
  let doe := z - era * 146097
  let yoe := (doe - doe / 1460 + doe / 36524 - doe / 146096) / 365
  let y := yoe + era * 400
  let doy := doe - (365 * yoe + yoe / 4 - yoe / 100)
  let mp := (5 * doy + 2) / 153
  let d := doy - (153 * mp + 2) / 5 + 1
  let m := if mp < 10 then mp + 3 else mp - 9
  (if m ≤ 2 then y + 1 else y, m, d)

/-- Go `time.Date(y, m, d, 0, 0, 0, 0, loc)` for a fixed-offset `loc`, with
`sod` seconds of day: the month is normalized into the year, the day is added
linearly (both as Go `Date` does). -/
def goDate (y m d sod : Int) : GoTime :=
  ⟨daysFromCivil (y + (m - 1) / 12) ((m - 1) % 12 + 1) d, sod⟩

/-- The `offset` computation of the `"this-week"` branch of `pickDate`:
`int(today.Weekday()) - int(time.Monday)`, bumped by 7 when negative
(the Sunday case). -/
def thisWeekOffset (now : GoTime) : Int :=
  let offset := goWeekday now - 1
  if offset < 0 then offset + 7 else offset

/-- Function `pickDate` from src/ghtimecardator.go, with `time.Now()` made an explicit
parameter `now`.  The `"last-month"` branch unfolds
`firstOfThisMonth.AddDate(0, -1, 0)` to `Date(year, month-1, 1, 0, 0, 0)`,
which is what Go `AddDate` evaluates to on the first of a month. -/
def pickDate (arg : String) (now : GoTime) : Except String GoTime :=
  if arg = "today" then .ok now
  else if arg = "yesterday" then .ok (addDateDays now (-1))
  else if arg = "last-3days" then .ok (addDateDays now (-3))
  else if arg = "this-week" then .ok (addDateDays now (-(thisWeekOffset now)))
  else if arg = "last-week" then .ok (addDateDays now (-(goWeekday now + 6)))
  else if arg = "this-month" then
    .ok (goDate (civilFromDays now.days).1 (civilFromDays now.days).2.1 1 0)
  else if arg = "last-month" then
    .ok (goDate (civilFromDays now.days).1 ((civilFromDays now.days).2.1 - 1) 1 0)
  else .error "invalid argument"

/-- Go `type id int` from src/ghtimecardator.go. -/
abbrev id := Int

/-- The `metadata` struct: per work item data (issue or pull request). -/
structure metadata where
  eventId : id
  url : String
  title : String
  description : String
  author : Bool
deriving DecidableEq, Repr

/-- The `action` struct: one observed activity against a work item. -/
structure action where
  action : String
  object : String
  content : String
deriving DecidableEq, Repr

/-- Object kind constant `ObjectIssue`. -/
def ObjectIssue : String := "issue"

/-- Object kind constant `ObjectIssueComment`. -/
def ObjectIssueComment : String := "issue comment"

/-- Object kind constant `ObjectPR`. -/
def ObjectPR : String := "pull request"

/-- Object kind constant `ObjectPRComment`. -/
def ObjectPRComment : String := "pull request comment"

/-- The `work` struct: the activity ledger.  The Go maps are modelled as
association lists touched only through `lookupA` and `setA`. -/
structure work where
  issues : List (id × metadata)
  pulls : List (id × metadata)
  actions : List (id × List action)
  user : String
deriving DecidableEq, Repr

/-- Key lookup in the association-list model of a Go map. -/
def lookupA {α : Type} : List (id × α) → id → Option α
  | [], _ => none
  | (k, v) :: rest, j => if k = j then some v else lookupA rest j

/-- Key update in the association-list model of a Go map. -/
def setA {α : Type} : List (id × α) → id → α → List (id × α)
  | [], j, v => [(j, v)]
  | (k, w) :: rest, j, v => if k = j then (j, v) :: rest else (k, w) :: setA rest j v

/-- The OpenAI chat collaborator: `llm.Call` takes a role string and an
instruction string and produces a possibly nil answer (the error return of
`Call` is discarded by the code). -/
def Summarizer : Type := String → String → Option String

/-- Helper `executeAI` from src/ghtimecardator.go: a nil answer becomes the empty
string, otherwise the content of the answer is returned. -/
def executeAI (llm : Summarizer) (role instr : String) : String :=
  match llm role instr with
  | none => ""
  | some answer => answer

/-- Helper `descriptionSummary` from src/ghtimecardator.go. -/
def descriptionSummary (llm : Summarizer) (text : String) : String :=
  executeAI llm "You are a BOT that rewrites GitHub Issue and PR descriptions."
    ("Rewrite description below in couple of lines:\n\n" ++ text)

/-- The fields of `github.Issue` read by the code.  `isPullRequest` models
`Issue.IsPullRequest()` (a pull request link is present on the issue). -/
structure Issue where
  number : Int
  htmlURL : String
  title : String
  body : String
  userLogin : String
  isPullRequest : Bool
deriving DecidableEq, Repr

/-- The fields of `github.PullRequest` read by the code. -/
structure PullRequest where
  number : Int
  htmlURL : String
  title : String
  body : String
  userLogin : String
  merged : Bool
deriving DecidableEq, Repr

/-- Method `work.addIssue`: choose the target map (`pulls` when the issue is
flagged as a pull request, else `issues`), no-op when the id is already
present in that target map, otherwise insert the freshly built metadata. -/
def addIssue (llm : Summarizer) (w : work) (issue : Issue) : work :=
  let i : id := issue.number
  let place := if issue.isPullRequest then w.pulls else w.issues
  match lookupA place i with
  | some _ => w
  | none =>
    let m : metadata :=
      { eventId := i, url := issue.htmlURL, title := issue.title,
        description := descriptionSummary llm issue.body,
        author := issue.userLogin == w.user }
    if issue.isPullRequest then { w with pulls := setA w.pulls i m }
    else { w with issues := setA w.issues i m }

/-- Method `work.addPullRequest`: no-op when the id is already present in `pulls`,
otherwise insert the freshly built metadata into `pulls`. -/
def addPullRequest (llm : Summarizer) (w : work) (pr : PullRequest) : work :=
  let i : id := pr.number
  match lookupA w.pulls i with
  | some _ => w
  | none =>
    let m : metadata :=
      { eventId := i, url := pr.htmlURL, title := pr.title,
        description := descriptionSummary llm pr.body,
        author := pr.userLogin == w.user }
    { w with pulls := setA w.pulls i m }

/-- The action timeline of a work item: Go `w.actions[id]`, with a missing
key reading as the nil slice. -/
def getActions (w : work) (i : id) : List action := (lookupA w.actions i).getD []

/-- Method `work.addAction`: `w.actions[id] = append(w.actions[id], a)`. -/
def addAction (w : work) (i : id) (a : action) : work :=
  { w with actions := setA w.actions i (getActions w i ++ [a]) }

/-- Method `work.getIssueOrPR`: checks `issues` then `pulls`. -/
def getIssueOrPR (w : work) (i : id) : Option metadata :=
  match lookupA w.issues i with
  | some m => some m
  | none => lookupA w.pulls i

/-- Whether `id` is a key of the `issues` map. -/
def hasIssue (w : work) (i : id) : Bool := (lookupA w.issues i).isSome

/-- Whether `id` is a key of the `pulls` map. -/
def hasPull (w : work) (i : id) : Bool := (lookupA w.pulls i).isSome

/-- The event payload kinds distinguished by the type switch of
`handleEvent`, with the fields each branch reads.  `otherEvent` covers the
recognized-but-unhandled kinds (the empty TODO cases), the unknown default
case, and payloads that failed to parse — all of which leave the ledger
untouched. -/
inductive Event where
  | issuesEvent (act : String) (issue : Issue)
  | pullRequestEvent (act : String) (pr : PullRequest)
  | issueCommentEvent (act : String) (issue : Issue) (commentBody : String)
  | pullRequestReviewEvent (act : String) (pr : PullRequest) (reviewBody : String)
  | pullRequestReviewCommentEvent (act : String) (pr : PullRequest) (commentBody : String)
  | otherEvent (eventType : String)
deriving DecidableEq, Repr

/-- Function `handleEvent` from src/ghtimecardator.go: the type switch over the
event payload. -/
def handleEvent (llm : Summarizer) (w : work) : Event → work
  | .issuesEvent act issue =>
    let w2 := addIssue llm w issue
    addAction w2 issue.number
      ⟨act, ObjectIssue, descriptionSummary llm issue.body⟩
  | .pullRequestEvent act pr =>
    let realAction := if act = "closed" then
        (if pr.merged then "merged" else "closed")
      else act
    let w2 := addPullRequest llm w pr
    addAction w2 pr.number
      ⟨realAction, ObjectPR, descriptionSummary llm pr.body⟩
  | .issueCommentEvent act issue commentBody =>
    let w2 := addIssue llm w issue
    addAction w2 issue.number
      ⟨act, ObjectIssueComment, descriptionSummary llm commentBody⟩
  | .pullRequestReviewEvent act pr reviewBody =>
    let w2 := addPullRequest llm w pr
    addAction w2 pr.number
      ⟨act, ObjectPRComment, descriptionSummary llm reviewBody⟩
  | .pullRequestReviewCommentEvent act pr commentBody =>
    let w2 := addPullRequest llm w pr
    addAction w2 pr.number
      ⟨act, ObjectPRComment, descriptionSummary llm commentBody⟩
  | .otherEvent _ => w

/-- The empty ledger built in `main` for the tracked user. -/
def initWork (user : String) : work := ⟨[], [], [], user⟩

/-- Feeding a sequence of events through `handleEvent` into a fresh ledger,
in arrival order. -/
def ingest (llm : Summarizer) (user : String) (events : List Event) : work :=
  events.foldl (handleEvent llm) (initWork user)

/-- The seven date keywords recognized by `pickDate`. -/
def recognizedKeywords : List String :=
  ["today", "yesterday", "last-3days", "this-week", "last-week",
   "this-month", "last-month"]

/-- Per-event classification outcome read off `handleEvent`: the id the
event references together with the action record appended for it, or `none`
for the ignored kinds. -/
def classify (llm : Summarizer) : Event → Option (id × action)
  | .issuesEvent act issue =>
    some (issue.number, ⟨act, ObjectIssue, descriptionSummary llm issue.body⟩)
  | .pullRequestEvent act pr =>
    some (pr.number,
      ⟨if act = "closed" then (if pr.merged then "merged" else "closed") else act,
       ObjectPR, descriptionSummary llm pr.body⟩)
  | .issueCommentEvent act issue commentBody =>
    some (issue.number, ⟨act, ObjectIssueComment, descriptionSummary llm commentBody⟩)
  | .pullRequestReviewEvent act pr reviewBody =>
    some (pr.number, ⟨act, ObjectPRComment, descriptionSummary llm reviewBody⟩)
  | .pullRequestReviewCommentEvent act pr commentBody =>
    some (pr.number, ⟨act, ObjectPRComment, descriptionSummary llm commentBody⟩)
  | .otherEvent _ => none

/-- The work item id an event references, with the map it is routed to:
`some (n, b)` where `b` is true when the event upserts into `pulls`,
`none` for ignored events. -/
def refTarget : Event → Option (id × Bool)
  | .issuesEvent _ issue => some (issue.number, issue.isPullRequest)
  | .pullRequestEvent _ pr => some (pr.number, true)
  | .issueCommentEvent _ issue _ => some (issue.number, issue.isPullRequest)
  | .pullRequestReviewEvent _ pr _ => some (pr.number, true)
  | .pullRequestReviewCommentEvent _ pr _ => some (pr.number, true)
  | .otherEvent _ => none

/-- The work item id an event references (`none` for ignored events). -/
def refId (e : Event) : Option id := (refTarget e).map (fun p => p.1)

/-- The action record an event contributes to the timeline of id `j`. -/
def classifiedFor (llm : Summarizer) (j : id) (e : Event) : Option action :=
  match classify llm e with
  | some (k, a) => if k = j then some a else none
  | none => none

theorem lookupA_setA {α : Type} (m : List (id × α)) (k j : id) (v : α) :
    lookupA (setA m k v) j = if k = j then some v else lookupA m j := by
  induction m with
  | nil => by_cases h : k = j <;> simp [setA, lookupA, h]
  | cons p rest ih =>
    obtain ⟨k2, v2⟩ := p
    by_cases h : k2 = k
    · subst h
      by_cases h2 : k2 = j <;> simp [setA, lookupA, h2]
    · by_cases h2 : k2 = j
      · subst h2
        simp [setA, lookupA, h, ih, Ne.symm h]
      · simp [setA, lookupA, h, h2, ih]

theorem issues_addAction (w : work) (k : id) (a : action) :
    (addAction w k a).issues = w.issues := rfl

theorem pulls_addAction (w : work) (k : id) (a : action) :
    (addAction w k a).pulls = w.pulls := rfl

theorem getActions_addAction (w : work) (k j : id) (a : action) :
    getActions (addAction w k a) j =
      if k = j then getActions w j ++ [a] else getActions w j := by
  simp only [getActions, addAction, lookupA_setA]
  by_cases h : k = j <;> simp [h]

theorem actions_addIssue (llm : Summarizer) (w : work) (issue : Issue) :
    (addIssue llm w issue).actions = w.actions := by
  simp only [addIssue]
  split
  · rfl
  · split <;> rfl

theorem actions_addPullRequest (llm : Summarizer) (w : work) (pr : PullRequest) :
    (addPullRequest llm w pr).actions = w.actions := by
  simp only [addPullRequest]
  split <;> rfl

theorem getActions_addIssue (llm : Summarizer) (w : work) (issue : Issue) (j : id) :
    getActions (addIssue llm w issue) j = getActions w j := by
  simp [getActions, actions_addIssue]

theorem getActions_addPullRequest (llm : Summarizer) (w : work) (pr : PullRequest) (j : id) :
    getActions (addPullRequest llm w pr) j = getActions w j := by
  simp [getActions, actions_addPullRequest]

theorem issues_addPullRequest (llm : Summarizer) (w : work) (pr : PullRequest) :
    (addPullRequest llm w pr).issues = w.issues := by
  simp only [addPullRequest]
  split <;> rfl

theorem issues_addIssue_PR (llm : Summarizer) (w : work) (issue : Issue)
    (h : issue.isPullRequest = true) :
    (addIssue llm w issue).issues = w.issues := by
  simp only [addIssue, h]
  split
  · rfl
  · simp

theorem pulls_addIssue_notPR (llm : Summarizer) (w : work) (issue : Issue)
    (h : issue.isPullRequest = false) :
    (addIssue llm w issue).pulls = w.pulls := by
  simp only [addIssue, h]
  split
  · rfl
  · simp

theorem hasIssue_addIssue (llm : Summarizer) (w : work) (issue : Issue) (j : id)
    (h : hasIssue w j = true) : hasIssue (addIssue llm w issue) j = true := by
  simp only [addIssue]
  split
  · exact h
  · split
    · exact h
    · simp only [hasIssue, lookupA_setA] at h ⊢
      split <;> simp_all

theorem hasPull_addIssue (llm : Summarizer) (w : work) (issue : Issue) (j : id)
    (h : hasPull w j = true) : hasPull (addIssue llm w issue) j = true := by
  simp only [addIssue]
  split
  · exact h
  · split
    · simp only [hasPull, lookupA_setA] at h ⊢
      split <;> simp_all
    · exact h

theorem hasPull_addPullRequest (llm : Summarizer) (w : work) (pr : PullRequest) (j : id)
    (h : hasPull w j = true) : hasPull (addPullRequest llm w pr) j = true := by
  simp only [addPullRequest]
  split
  · exact h
  · simp only [hasPull, lookupA_setA] at h ⊢
    split <;> simp_all

theorem hasIssue_addIssue_ne (llm : Summarizer) (w : work) (issue : Issue) (j : id)
    (h : issue.number ≠ j) : hasIssue (addIssue llm w issue) j = hasIssue w j := by
  simp only [addIssue]
  split
  · rfl
  · split
    · rfl
    · simp [hasIssue, lookupA_setA, h]

theorem hasPull_addIssue_ne (llm : Summarizer) (w : work) (issue : Issue) (j : id)
    (h : issue.number ≠ j) : hasPull (addIssue llm w issue) j = hasPull w j := by
  simp only [addIssue]
  split
  · rfl
  · split
    · simp [hasPull, lookupA_setA, h]
    · rfl

theorem hasPull_addPullRequest_ne (llm : Summarizer) (w : work) (pr : PullRequest) (j : id)
    (h : pr.number ≠ j) : hasPull (addPullRequest llm w pr) j = hasPull w j := by
  simp only [addPullRequest]
  split
  · rfl
  · simp [hasPull, lookupA_setA, h]

theorem hasIssue_addIssue_self (llm : Summarizer) (w : work) (issue : Issue)
    (h : issue.isPullRequest = false) :
    hasIssue (addIssue llm w issue) issue.number = true := by
  simp only [addIssue, h]
  split
  · next heq =>
    simp only [Bool.false_eq_true, if_false] at heq
    simp [hasIssue, heq]
  · simp [hasIssue, lookupA_setA]

theorem hasPull_addIssue_self (llm : Summarizer) (w : work) (issue : Issue)
    (h : issue.isPullRequest = true) :
    hasPull (addIssue llm w issue) issue.number = true := by
  simp only [addIssue, h]
  split
  · next heq =>
    simp only [if_true] at heq
    simp [hasPull, heq]
  · simp [hasPull, lookupA_setA]

theorem hasPull_addPullRequest_self (llm : Summarizer) (w : work) (pr : PullRequest) :
    hasPull (addPullRequest llm w pr) pr.number = true := by
  simp only [addPullRequest]
  split
  · next heq => simp [hasPull, heq]
  · simp [hasPull, lookupA_setA]

theorem hasIssue_addAction (w : work) (k : id) (a : action) (j : id) :
    hasIssue (addAction w k a) j = hasIssue w j := rfl

theorem hasPull_addAction (w : work) (k : id) (a : action) (j : id) :
    hasPull (addAction w k a) j = hasPull w j := rfl

theorem hasIssue_addPullRequest (llm : Summarizer) (w : work) (pr : PullRequest) (j : id) :
    hasIssue (addPullRequest llm w pr) j = hasIssue w j := by
  simp [hasIssue, issues_addPullRequest]

theorem getActions_handleEvent (llm : Summarizer) (w : work) (e : Event) (j : id) :
    getActions (handleEvent llm w e) j =
      getActions w j ++ (classifiedFor llm j e).toList := by
  cases e with
  | issuesEvent act issue =>
    simp only [handleEvent, getActions_addAction, getActions_addIssue,
      classifiedFor, classify]
    by_cases hj : issue.number = j <;> simp [hj]
  | pullRequestEvent act pr =>
    simp only [handleEvent, getActions_addAction, getActions_addPullRequest,
      classifiedFor, classify]
    by_cases hj : pr.number = j <;> simp [hj]
  | issueCommentEvent act issue commentBody =>
    simp only [handleEvent, getActions_addAction, getActions_addIssue,
      classifiedFor, classify]
    by_cases hj : issue.number = j <;> simp [hj]
  | pullRequestReviewEvent act pr reviewBody =>
    simp only [handleEvent, getActions_addAction, getActions_addPullRequest,
      classifiedFor, classify]
    by_cases hj : pr.number = j <;> simp [hj]
  | pullRequestReviewCommentEvent act pr commentBody =>
    simp only [handleEvent, getActions_addAction, getActions_addPullRequest,
      classifiedFor, classify]
    by_cases hj : pr.number = j <;> simp [hj]
  | otherEvent t => simp [handleEvent, classifiedFor, classify]

theorem getActions_foldl (llm : Summarizer) (j : id) :
    ∀ (es : List Event) (w : work),
      getActions (es.foldl (handleEvent llm) w) j =
        getActions w j ++ es.filterMap (classifiedFor llm j)
  | [], w => by simp
  | e :: es, w => by
    rw [List.foldl_cons, getActions_foldl llm j es, getActions_handleEvent,
      List.filterMap_cons]
    cases h : classifiedFor llm j e <;> simp [h]

theorem classifiedFor_isSome (llm : Summarizer) (j : id) (e : Event) :
    (classifiedFor llm j e).isSome = (refId e == some j) := by
  cases e with
  | issuesEvent act issue =>
    by_cases hj : issue.number = j <;>
      simp [classifiedFor, classify, refId, refTarget, hj]
  | pullRequestEvent act pr =>
    by_cases hj : pr.number = j <;>
      simp [classifiedFor, classify, refId, refTarget, hj]
  | issueCommentEvent act issue commentBody =>
    by_cases hj : issue.number = j <;>
      simp [classifiedFor, classify, refId, refTarget, hj]
  | pullRequestReviewEvent act pr reviewBody =>
    by_cases hj : pr.number = j <;>
      simp [classifiedFor, classify, refId, refTarget, hj]
  | pullRequestReviewCommentEvent act pr commentBody =>
    by_cases hj : pr.number = j <;>
      simp [classifiedFor, classify, refId, refTarget, hj]
  | otherEvent t => simp [classifiedFor, classify, refId, refTarget]

theorem length_filterMap_classifiedFor (llm : Summarizer) (j : id) :
    ∀ es : List Event,
      (es.filterMap (classifiedFor llm j)).length =
        es.countP (fun e => refId e == some j)
  | [] => rfl
  | e :: es => by
    rw [List.filterMap_cons, List.countP_cons,
      ← length_filterMap_classifiedFor llm j es, ← classifiedFor_isSome llm j e]
    cases h : classifiedFor llm j e <;> simp [h]

theorem classifiedFor_eq_none_of_ne (llm : Summarizer) (j : id) (e : Event)
    (n : id) (f : Bool) (ht : refTarget e = some (n, f)) (hn : n ≠ j) :
    classifiedFor llm j e = none := by
  cases e with
  | issuesEvent act issue =>
    simp only [refTarget, Option.some.injEq, Prod.mk.injEq] at ht
    simp [classifiedFor, classify, ht.1.symm ▸ hn]
  | pullRequestEvent act pr =>
    simp only [refTarget, Option.some.injEq, Prod.mk.injEq] at ht
    simp [classifiedFor, classify, ht.1.symm ▸ hn]
  | issueCommentEvent act issue commentBody =>
    simp only [refTarget, Option.some.injEq, Prod.mk.injEq] at ht
    simp [classifiedFor, classify, ht.1.symm ▸ hn]
  | pullRequestReviewEvent act pr reviewBody =>
    simp only [refTarget, Option.some.injEq, Prod.mk.injEq] at ht
    simp [classifiedFor, classify, ht.1.symm ▸ hn]
  | pullRequestReviewCommentEvent act pr commentBody =>
    simp only [refTarget, Option.some.injEq, Prod.mk.injEq] at ht
    simp [classifiedFor, classify, ht.1.symm ▸ hn]
  | otherEvent t => simp [refTarget] at ht

theorem hasIssue_handleEvent (llm : Summarizer) (w : work) (e : Event) (j : id)
    (h : hasIssue w j = true) : hasIssue (handleEvent llm w e) j = true := by
  cases e with
  | issuesEvent act issue =>
    rw [handleEvent, hasIssue_addAction]; exact hasIssue_addIssue llm w issue j h
  | pullRequestEvent act pr =>
    rw [handleEvent, hasIssue_addAction, hasIssue_addPullRequest]; exact h
  | issueCommentEvent act issue commentBody =>
    rw [handleEvent, hasIssue_addAction]; exact hasIssue_addIssue llm w issue j h
  | pullRequestReviewEvent act pr reviewBody =>
    rw [handleEvent, hasIssue_addAction, hasIssue_addPullRequest]; exact h
  | pullRequestReviewCommentEvent act pr commentBody =>
    rw [handleEvent, hasIssue_addAction, hasIssue_addPullRequest]; exact h
  | otherEvent t => exact h

theorem hasPull_handleEvent (llm : Summarizer) (w : work) (e : Event) (j : id)
    (h : hasPull w j = true) : hasPull (handleEvent llm w e) j = true := by
  cases e with
  | issuesEvent act issue =>
    rw [handleEvent, hasPull_addAction]; exact hasPull_addIssue llm w issue j h
  | pullRequestEvent act pr =>
    rw [handleEvent, hasPull_addAction]; exact hasPull_addPullRequest llm w pr j h
  | issueCommentEvent act issue commentBody =>
    rw [handleEvent, hasPull_addAction]; exact hasPull_addIssue llm w issue j h
  | pullRequestReviewEvent act pr reviewBody =>
    rw [handleEvent, hasPull_addAction]; exact hasPull_addPullRequest llm w pr j h
  | pullRequestReviewCommentEvent act pr commentBody =>
    rw [handleEvent, hasPull_addAction]; exact hasPull_addPullRequest llm w pr j h
  | otherEvent t => exact h

theorem handleEvent_member_self (llm : Summarizer) (w : work) (e : Event)
    (j : id) (f : Bool) (ht : refTarget e = some (j, f)) :
    hasIssue (handleEvent llm w e) j = true ∨ hasPull (handleEvent llm w e) j = true := by
  cases e with
  | issuesEvent act issue =>
    simp only [refTarget, Option.some.injEq, Prod.mk.injEq] at ht
    obtain ⟨hn, _⟩ := ht
    cases hpr : issue.isPullRequest
    · left
      rw [handleEvent, hasIssue_addAction, ← hn]
      exact hasIssue_addIssue_self llm w issue hpr
    · right
      rw [handleEvent, hasPull_addAction, ← hn]
      exact hasPull_addIssue_self llm w issue hpr
  | pullRequestEvent act pr =>
    simp only [refTarget, Option.some.injEq, Prod.mk.injEq] at ht
    right
    rw [handleEvent, hasPull_addAction, ← ht.1]
    exact hasPull_addPullRequest_self llm w pr
  | issueCommentEvent act issue commentBody =>
    simp only [refTarget, Option.some.injEq, Prod.mk.injEq] at ht
    obtain ⟨hn, _⟩ := ht
    cases hpr : issue.isPullRequest
    · left
      rw [handleEvent, hasIssue_addAction, ← hn]
      exact hasIssue_addIssue_self llm w issue hpr
    · right
      rw [handleEvent, hasPull_addAction, ← hn]
      exact hasPull_addIssue_self llm w issue hpr
  | pullRequestReviewEvent act pr reviewBody =>
    simp only [refTarget, Option.some.injEq, Prod.mk.injEq] at ht
    right
    rw [handleEvent, hasPull_addAction, ← ht.1]
    exact hasPull_addPullRequest_self llm w pr
  | pullRequestReviewCommentEvent act pr commentBody =>
    simp only [refTarget, Option.some.injEq, Prod.mk.injEq] at ht
    right
    rw [handleEvent, hasPull_addAction, ← ht.1]
    exact hasPull_addPullRequest_self llm w pr
  | otherEvent t => simp [refTarget] at ht

theorem actions_member_foldl (llm : Summarizer) (j : id) :
    ∀ (es : List Event) (w : work),
      (getActions w j ≠ [] → hasIssue w j = true ∨ hasPull w j = true) →
      getActions (es.foldl (handleEvent llm) w) j ≠ [] →
      hasIssue (es.foldl (handleEvent llm) w) j = true ∨
        hasPull (es.foldl (handleEvent llm) w) j = true
  | [], _, h, hne => h hne
  | e :: es, w, h, hne => by
    rw [List.foldl_cons] at hne ⊢
    refine actions_member_foldl llm j es (handleEvent llm w e) ?_ hne
    intro hne2
    rcases ht : refTarget e with _ | ⟨n, f⟩
    · cases e <;> simp [refTarget] at ht
      case otherEvent t =>
        rcases h (by simpa [handleEvent] using hne2) with hi | hp
        · exact Or.inl (hasIssue_handleEvent llm w _ j hi)
        · exact Or.inr (hasPull_handleEvent llm w _ j hp)
    · by_cases hn : n = j
      · rw [hn] at ht
        exact handleEvent_member_self llm w e j f ht
      · have hact : getActions (handleEvent llm w e) j = getActions w j := by
          rw [getActions_handleEvent, classifiedFor_eq_none_of_ne llm j e n f ht hn]
          simp
        rw [hact] at hne2
        rcases h hne2 with hi | hp
        · exact Or.inl (hasIssue_handleEvent llm w e j hi)
        · exact Or.inr (hasPull_handleEvent llm w e j hp)

theorem handleEvent_consistent (llm : Summarizer) (w : work) (e : Event)
    (i : id) (b : Bool)
    (he : ∀ n f, refTarget e = some (n, f) → n = i → f = b)
    (h1 : hasIssue w i = true → b = false)
    (h2 : hasPull w i = true → b = true) :
    (hasIssue (handleEvent llm w e) i = true → b = false) ∧
    (hasPull (handleEvent llm w e) i = true → b = true) := by
  cases e with
  | issuesEvent act issue =>
    rw [handleEvent]
    constructor <;> intro hm
    · rw [hasIssue_addAction] at hm
      cases hpr : issue.isPullRequest
      · by_cases hij : issue.number = i
        · exact (he issue.number issue.isPullRequest rfl hij).symm.trans hpr
        · rw [hasIssue_addIssue_ne llm w issue i hij] at hm
          exact h1 hm
      · rw [hasIssue, issues_addIssue_PR llm w issue hpr] at hm
        exact h1 hm
    · rw [hasPull_addAction] at hm
      cases hpr : issue.isPullRequest
      · rw [hasPull, pulls_addIssue_notPR llm w issue hpr] at hm
        exact h2 hm
      · by_cases hij : issue.number = i
        · exact (he issue.number issue.isPullRequest rfl hij).symm.trans hpr
        · rw [hasPull_addIssue_ne llm w issue i hij] at hm
          exact h2 hm
  | pullRequestEvent act pr =>
    rw [handleEvent]
    constructor <;> intro hm
    · rw [hasIssue_addAction, hasIssue_addPullRequest] at hm
      exact h1 hm
    · rw [hasPull_addAction] at hm
      by_cases hij : pr.number = i
      · exact (he pr.number true rfl hij).symm
      · rw [hasPull_addPullRequest_ne llm w pr i hij] at hm
        exact h2 hm
  | issueCommentEvent act issue commentBody =>
    rw [handleEvent]
    constructor <;> intro hm
    · rw [hasIssue_addAction] at hm
      cases hpr : issue.isPullRequest
      · by_cases hij : issue.number = i
        · exact (he issue.number issue.isPullRequest rfl hij).symm.trans hpr
        · rw [hasIssue_addIssue_ne llm w issue i hij] at hm
          exact h1 hm
      · rw [hasIssue, issues_addIssue_PR llm w issue hpr] at hm
        exact h1 hm
    · rw [hasPull_addAction] at hm
      cases hpr : issue.isPullRequest
      · rw [hasPull, pulls_addIssue_notPR llm w issue hpr] at hm
        exact h2 hm
      · by_cases hij : issue.number = i
        · exact (he issue.number issue.isPullRequest rfl hij).symm.trans hpr
        · rw [hasPull_addIssue_ne llm w issue i hij] at hm
          exact h2 hm
  | pullRequestReviewEvent act pr reviewBody =>
    rw [handleEvent]
    constructor <;> intro hm
    · rw [hasIssue_addAction, hasIssue_addPullRequest] at hm
      exact h1 hm
    · rw [hasPull_addAction] at hm
      by_cases hij : pr.number = i
      · exact (he pr.number true rfl hij).symm
      · rw [hasPull_addPullRequest_ne llm w pr i hij] at hm
        exact h2 hm
  | pullRequestReviewCommentEvent act pr commentBody =>
    rw [handleEvent]
    constructor <;> intro hm
    · rw [hasIssue_addAction, hasIssue_addPullRequest] at hm
      exact h1 hm
    · rw [hasPull_addAction] at hm
      by_cases hij : pr.number = i
      · exact (he pr.number true rfl hij).symm
      · rw [hasPull_addPullRequest_ne llm w pr i hij] at hm
        exact h2 hm
  | otherEvent t => exact ⟨h1, h2⟩

theorem foldl_consistent (llm : Summarizer) (i : id) (b : Bool) :
    ∀ (es : List Event) (w : work),
      (∀ e ∈ es, ∀ n f, refTarget e = some (n, f) → n = i → f = b) →
      (hasIssue w i = true → b = false) →
      (hasPull w i = true → b = true) →
      (hasIssue (es.foldl (handleEvent llm) w) i = true → b = false) ∧
      (hasPull (es.foldl (handleEvent llm) w) i = true → b = true)
  | [], _, _, h1, h2 => ⟨h1, h2⟩
  | e :: es, w, he, h1, h2 => by
    rw [List.foldl_cons]
    obtain ⟨g1, g2⟩ :=
      handleEvent_consistent llm w e i b (he e (by simp)) h1 h2
    exact foldl_consistent llm i b es (handleEvent llm w e)
      (fun x hx => he x (by simp [hx])) g1 g2

theorem addIssue_of_present (llm : Summarizer) (w : work) (issue : Issue)
    (h : (lookupA (if issue.isPullRequest then w.pulls else w.issues)
        issue.number).isSome = true) :
    addIssue llm w issue = w := by
  simp only [addIssue]
  split
  · rfl
  · next heq => rw [heq] at h; simp at h

theorem addPullRequest_of_present (llm : Summarizer) (w : work) (pr : PullRequest)
    (h : (lookupA w.pulls pr.number).isSome = true) :
    addPullRequest llm w pr = w := by
  simp only [addPullRequest]
  split
  · rfl
  · next heq => rw [heq] at h; simp at h

/-- Claim C1 (counterexample): an issue event and a pull request event that
reference the same work item number 5 leave the id present in both the
`issues` and the `pulls` maps — `addIssue` and `addPullRequest` each check
only their own target map.  The claim as stated, quantifying over events of
any recognized kind, therefore fails. -/
theorem c1_counterexample :
    hasIssue (ingest (fun _ _ => none) "alice"
      [Event.issuesEvent "opened" ⟨5, "u1", "t1", "b1", "alice", false⟩,
       Event.pullRequestEvent "opened" ⟨5, "u2", "t2", "b2", "bob", false⟩]) 5 = true ∧
    hasPull (ingest (fun _ _ => none) "alice"
      [Event.issuesEvent "opened" ⟨5, "u1", "t1", "b1", "alice", false⟩,
       Event.pullRequestEvent "opened" ⟨5, "u2", "t2", "b2", "bob", false⟩]) 5 = true := by
  decide

/-- Claim C1 (amended): if every event of the sequence that references the
id routes it to the same map — all of them flag it as a pull request, or
none does, which is what the upstream shared-counter numbering guarantees —
then after ingestion the id appears in at most one of `issues` and
`pulls`. -/
theorem c1_consistent_kind_at_most_one (llm : Summarizer) (user : String)
    (es : List Event) (i : id) (b : Bool)
    (hc : ∀ e ∈ es, ∀ n f, refTarget e = some (n, f) → n = i → f = b) :
    ¬(hasIssue (ingest llm user es) i = true ∧
      hasPull (ingest llm user es) i = true) := by
  rintro ⟨hi, hp⟩
  obtain ⟨g1, g2⟩ := foldl_consistent llm i b es (initWork user) hc
    (by simp [hasIssue, initWork, lookupA]) (by simp [hasPull, initWork, lookupA])
  have hb1 := g1 hi
  have hb2 := g2 hp
  rw [hb1] at hb2
  exact Bool.false_ne_true hb2

/-- Claim C1 (amended, witness): the amended statement applied to a concrete
two-event stream whose events reference id 5 consistently as an issue. -/
theorem c1_consistent_kind_at_most_one_witness :
    ¬(hasIssue (ingest (fun _ _ => none) "alice"
        [Event.issuesEvent "opened" ⟨5, "u1", "t1", "b1", "alice", false⟩,
         Event.issueCommentEvent "created" ⟨5, "u1", "t1", "b1", "alice", false⟩ "lgtm"]) 5 = true ∧
      hasPull (ingest (fun _ _ => none) "alice"
        [Event.issuesEvent "opened" ⟨5, "u1", "t1", "b1", "alice", false⟩,
         Event.issueCommentEvent "created" ⟨5, "u1", "t1", "b1", "alice", false⟩ "lgtm"]) 5 = true) :=
  c1_consistent_kind_at_most_one (fun _ _ => none) "alice"
    [Event.issuesEvent "opened" ⟨5, "u1", "t1", "b1", "alice", false⟩,
     Event.issueCommentEvent "created" ⟨5, "u1", "t1", "b1", "alice", false⟩ "lgtm"]
    5 false (by intro e he n f hr hni; fin_cases he <;> simp_all [refTarget])

/-- Claim C4: upserting a work item twice with the same id is
first-write-wins — after the first upsert stores a record, a second upsert
whose record carries the same id (and the same issue/pull-request kind, so
it targets the same map) but arbitrary other fields — url, title, body and
author may all differ — is a no-op: the whole ledger, in particular the
stored record with its description, isAuthor flag, url and title, is
unchanged after the second call.  Holds for both `addIssue` and
`addPullRequest`. -/
theorem c4_first_write_wins (llm : Summarizer) (w : work)
    (i1 i2 : Issue) (p1 p2 : PullRequest)
    (hn : i2.number = i1.number) (hk : i2.isPullRequest = i1.isPullRequest)
    (hpn : p2.number = p1.number) :
    addIssue llm (addIssue llm w i1) i2 = addIssue llm w i1 ∧
    addPullRequest llm (addPullRequest llm w p1) p2 = addPullRequest llm w p1 := by
  constructor
  · apply addIssue_of_present
    rw [hn, hk]
    cases hpr : i1.isPullRequest
    · simpa [hpr, hasIssue] using hasIssue_addIssue_self llm w i1 hpr
    · simpa [hpr, hasPull] using hasPull_addIssue_self llm w i1 hpr
  · apply addPullRequest_of_present
    rw [hpn]
    simpa [hasPull] using hasPull_addPullRequest_self llm w p1

/-- Claim C4 (witness): the second upsert carries the same ids 3 and 4 but
different url, title, body and author — it is still a no-op, so the records
stored by the first upserts survive unchanged. -/
theorem c4_first_write_wins_witness :
    addIssue (fun _ _ => none)
        (addIssue (fun _ _ => none) (initWork "alice")
          ⟨3, "u1", "t1", "b1", "alice", false⟩)
        ⟨3, "u2", "t2", "b2", "bob", false⟩ =
      addIssue (fun _ _ => none) (initWork "alice")
        ⟨3, "u1", "t1", "b1", "alice", false⟩ ∧
    addPullRequest (fun _ _ => none)
        (addPullRequest (fun _ _ => none) (initWork "alice")
          ⟨4, "v1", "s1", "c1", "alice", false⟩)
        ⟨4, "v2", "s2", "c2", "carol", true⟩ =
      addPullRequest (fun _ _ => none) (initWork "alice")
        ⟨4, "v1", "s1", "c1", "alice", false⟩ :=
  c4_first_write_wins (fun _ _ => none) (initWork "alice")
    ⟨3, "u1", "t1", "b1", "alice", false⟩ ⟨3, "u2", "t2", "b2", "bob", false⟩
    ⟨4, "v1", "s1", "c1", "alice", false⟩ ⟨4, "v2", "s2", "c2", "carol", true⟩
    rfl rfl rfl

/-- Claim C5: a pull request event appends exactly one action record to the
timeline of its number, whose verb is `merged` when the verbatim action is
`closed` and the merged flag is set, `closed` when the verbatim action is
`closed` and the flag is clear, and the verbatim action string otherwise. -/
theorem c5_pr_closed_merged (llm : Summarizer) (w : work) (act : String)
    (pr : PullRequest) :
    getActions (handleEvent llm w (.pullRequestEvent act pr)) pr.number =
      getActions w pr.number ++
        [⟨if act = "closed" then (if pr.merged then "merged" else "closed") else act,
          ObjectPR, descriptionSummary llm pr.body⟩] := by
  rw [handleEvent, getActions_addAction, getActions_addPullRequest]
  simp

/-- Claim C6: after ingesting any event sequence, the timeline of each id
is exactly the action records of the classified (non-ignored) events
referencing that id, in arrival order; its length is the count of those
events; and the timeline is non-empty only when the id appears in `issues`
or in `pulls`. -/
theorem c6_actions_timeline (llm : Summarizer) (user : String)
    (es : List Event) (j : id) :
    getActions (ingest llm user es) j = es.filterMap (classifiedFor llm j) ∧
    (getActions (ingest llm user es) j).length =
      es.countP (fun e => refId e == some j) ∧
    (getActions (ingest llm user es) j = [] ∨
      hasIssue (ingest llm user es) j = true ∨
      hasPull (ingest llm user es) j = true) := by
  have hbase : getActions (initWork user) j = [] := by
    simp [getActions, initWork, lookupA]
  refine ⟨?_, ?_, ?_⟩
  · rw [ingest, getActions_foldl, hbase, List.nil_append]
  · rw [ingest, getActions_foldl, hbase, List.nil_append]
    exact length_filterMap_classifiedFor llm j es
  · by_cases h : getActions (ingest llm user es) j = []
    · exact Or.inl h
    · exact Or.inr (actions_member_foldl llm j es (initWork user)
        (fun hc => absurd hbase hc) h)

/-- Claim C7 (counterexample): an issue comment event whose issue record is
itself flagged as a pull request is recorded in the `pulls` map, not in
`issues` — `handleEvent` routes issue comments through `addIssue`, which
diverts pull-request-flagged issues to `pulls`.  The claim that every issue
comment event targets the `issues` map therefore fails. -/
theorem c7_counterexample :
    hasIssue (ingest (fun _ _ => none) "alice"
      [Event.issueCommentEvent "created" ⟨7, "u", "t", "b", "alice", true⟩ "nice"]) 7 = false ∧
    hasPull (ingest (fun _ _ => none) "alice"
      [Event.issueCommentEvent "created" ⟨7, "u", "t", "b", "alice", true⟩ "nice"]) 7 = true := by
  decide

/-- Claim C7 (amended): an issue comment event appends exactly one action
record with object kind `issue comment` and the verbatim event action
string as verb, and its work item is recorded in the `issues` map — unless
the issue record is flagged as a pull request, in which case it is recorded
in the `pulls` map. -/
theorem c7_issue_comment (llm : Summarizer) (w : work) (act : String)
    (issue : Issue) (commentBody : String) :
    getActions (handleEvent llm w (.issueCommentEvent act issue commentBody)) issue.number =
      getActions w issue.number ++
        [⟨act, ObjectIssueComment, descriptionSummary llm commentBody⟩] ∧
    (if issue.isPullRequest then
        hasPull (handleEvent llm w (.issueCommentEvent act issue commentBody)) issue.number
      else
        hasIssue (handleEvent llm w (.issueCommentEvent act issue commentBody)) issue.number) = true := by
  constructor
  · rw [handleEvent, getActions_addAction, getActions_addIssue]
    simp
  · cases hpr : issue.isPullRequest
    · simp only [hpr, Bool.false_eq_true, if_false]
      rw [handleEvent, hasIssue_addAction]
      exact hasIssue_addIssue_self llm w issue hpr
    · simp only [hpr, if_true]
      rw [handleEvent, hasPull_addAction]
      exact hasPull_addIssue_self llm w issue hpr

/-- The role string `actionSummaryString` handed to the summarizer for the
per-item digests (\x27 escapes the apostrophes of the original). -/
def actionSummaryString : String :=
  "\nYou will be given a summary of a GitHub Issue or PR and a series of actions made\nby me on it. They will be in the form of:\n\nSummary of the issue or PR (check URL string to see if it is an issue or PR)\n-\nAuthor: true or false (if I\x27m the author of the issue or PR)\n-\nAction: create, edit, delete, etc.\nObject: issue, pull request, issue comment, pull request comment/review.\nContent: description.\n-\n...\n\nYour job is to describe what I did in this issue, or pull request, taking into\nconsideration the issue description AND the series of actions, objects and\ndescription given in the form above.\n\nNote: I\x27m creading issues and pull requests, but I\x27m also commenting in other\npeople\x27s issues and pull requests (and sometimes replying above quoted text).\nSo, you should be able to differentiate whether I\x27m the author of the issue or\nPR, or if I\x27m just commenting on it (or reviewing it).\n"

/-- The instruction string built by `work.actionSummary` from the metadata
of the item and its action timeline. -/
def actionSummaryInstr (w : work) (i : id) (meta : metadata) : String :=
  "Summary of #" ++ toString meta.eventId ++ " (" ++ meta.url ++ ") " ++
    meta.title ++ "\n-\n" ++
  "Author: " ++ (if meta.author then "true" else "false") ++ "\n-\n" ++
  "Description: " ++ meta.description ++ "\n-\n" ++
  "Actions: " ++ toString (getActions w i).length ++ "\n-\n" ++
  String.join ((getActions w i).map (fun a =>
    "Action: " ++ a.action ++ "\nObject: " ++ a.object ++ "\nContent: " ++
      a.content ++ "\n-\n"))

/-- Method `work.actionSummary`: look the work item up, build the instruction and
call the summarizer collaborator.  On a missing id the Go code dereferences
a nil pointer; the driver only calls this with ids taken from the `issues`
and `pulls` maps, so that branch is unreachable there and is mapped to the
empty string. -/
def actionSummary (llm : Summarizer) (w : work) (i : id) : String :=
  match getIssueOrPR w i with
  | some meta => executeAI llm actionSummaryString (actionSummaryInstr w i meta)
  | none => ""

/-- One iteration of the issues loop of the report builder in `main`. -/
def issueSection (llm : Summarizer) (w : work) (m : metadata) : String :=
  "Issue: #" ++ toString m.eventId ++ " (" ++ m.url ++ ") " ++ m.title ++ "\n" ++
  "Description: " ++ actionSummary llm w m.eventId ++ "\n"

/-- The issues loop of the report builder in `main`, over the items of the
`issues` map in iteration order (Go map order is unspecified, hence the
explicit list parameter).  The pulls loop is identical up to the
`PR:` label. -/
def issuesReport (llm : Summarizer) (w : work) : List metadata → String
  | [] => ""
  | m :: rest => issueSection llm w m ++ issuesReport llm w rest

theorem issuesReport_append (llm : Summarizer) (w : work) (l1 l2 : List metadata) :
    issuesReport llm w (l1 ++ l2) = issuesReport llm w l1 ++ issuesReport llm w l2 := by
  induction l1 with
  | nil => simp [issuesReport]
  | cons m rest ih => simp [issuesReport, ih, String.append_assoc]

/-- Claim C9: a summarizer failure (nil answer) on one work item never
aborts the run — the narrative of that item is the empty string, the
report of the items before and after it is produced unchanged, and the
ledger (a read-only input of the purely functional driver) is untouched. -/
theorem c9_summarizer_failure_nonfatal (llm : Summarizer) (w : work)
    (m mf : metadata) (pre suf : List metadata)
    (h1 : getIssueOrPR w m.eventId = some mf)
    (h2 : llm actionSummaryString (actionSummaryInstr w m.eventId mf) = none) :
    actionSummary llm w m.eventId = "" ∧
    issuesReport llm w (pre ++ m :: suf) =
      issuesReport llm w pre ++
        ("Issue: #" ++ toString m.eventId ++ " (" ++ m.url ++ ") " ++ m.title ++
          "\n" ++ "Description: " ++ "\n") ++
        issuesReport llm w suf := by
  have hempty : actionSummary llm w m.eventId = "" := by
    simp only [actionSummary, h1, executeAI, h2]
  refine ⟨hempty, ?_⟩
  rw [issuesReport_append]
  simp [issuesReport, issueSection, hempty, String.append_assoc]

/-- Claim C9 (witness): the failure path evaluated on a one-item ledger
with a summarizer that always returns a nil answer. -/
theorem c9_summarizer_failure_nonfatal_witness :
    actionSummary (fun _ _ => none)
      ⟨[((1 : Int), ⟨1, "u", "T", "D", true⟩)], [],
        [((1 : Int), [⟨"opened", ObjectIssue, "c"⟩])], "alice"⟩
      (metadata.mk 1 "u" "T" "D" true).eventId = "" ∧
    issuesReport (fun _ _ => none)
      ⟨[((1 : Int), ⟨1, "u", "T", "D", true⟩)], [],
        [((1 : Int), [⟨"opened", ObjectIssue, "c"⟩])], "alice"⟩
      ([] ++ metadata.mk 1 "u" "T" "D" true :: []) =
    issuesReport (fun _ _ => none)
      ⟨[((1 : Int), ⟨1, "u", "T", "D", true⟩)], [],
        [((1 : Int), [⟨"opened", ObjectIssue, "c"⟩])], "alice"⟩ [] ++
      ("Issue: #" ++ toString (metadata.mk 1 "u" "T" "D" true).eventId ++ " (" ++
        (metadata.mk 1 "u" "T" "D" true).url ++ ") " ++
        (metadata.mk 1 "u" "T" "D" true).title ++ "\n" ++ "Description: " ++ "\n") ++
    issuesReport (fun _ _ => none)
      ⟨[((1 : Int), ⟨1, "u", "T", "D", true⟩)], [],
        [((1 : Int), [⟨"opened", ObjectIssue, "c"⟩])], "alice"⟩ [] :=
  c9_summarizer_failure_nonfatal (fun _ _ => none)
    ⟨[((1 : Int), ⟨1, "u", "T", "D", true⟩)], [],
      [((1 : Int), [⟨"opened", ObjectIssue, "c"⟩])], "alice"⟩
    (metadata.mk 1 "u" "T" "D" true) (metadata.mk 1 "u" "T" "D" true) [] []
    (by decide) rfl

/-- The ASCII branch of the charwise lowering performed by Go
`strings.ToLower` (repository names are ASCII). -/
def lowerChar (c : Char) : Char :=
  if 65 ≤ c.toNat ∧ c.toNat ≤ 90 then Char.ofNat (c.toNat + 32) else c

/-- Go `strings.ToLower` on ASCII strings, as applied to the caller-supplied
`owner/repo` argument in `main`. -/
def goToLower (s : String) : String := ⟨s.data.map lowerChar⟩

/-- ASCII uppercase letter test. -/
def isAsciiUpper (c : Char) : Bool := 65 ≤ c.toNat && c.toNat ≤ 90

/-- An event as seen by the fetch loop: the repository name it carries and
its payload. -/
structure EnvEvent where
  repoName : String
  payload : Event

/-- The per-event body of the fetch loop in `main`, after the begin-date
cutoff: when a non-empty wanted-repo filter differs from the verbatim
repository name the event is skipped, otherwise it is classified into the
ledger. -/
def loopBody (llm : Summarizer) (wantedRepo : String) (w : work) (ev : EnvEvent) : work :=
  if wantedRepo ≠ "" ∧ ev.repoName ≠ wantedRepo then w
  else handleEvent llm w ev.payload

theorem toNat_ofNat_valid (n : Nat) (h : n < 55296) : (Char.ofNat n).toNat = n := by
  have hv : n.isValidChar := Or.inl h
  unfold Char.ofNat
  rw [dif_pos hv]
  rfl

theorem toNat_lowerChar (c : Char) :
    (lowerChar c).toNat = if 65 ≤ c.toNat ∧ c.toNat ≤ 90 then c.toNat + 32 else c.toNat := by
  unfold lowerChar
  split
  · next h => exact toNat_ofNat_valid (c.toNat + 32) (by omega)
  · rfl

theorem isAsciiUpper_lowerChar (c : Char) : isAsciiUpper (lowerChar c) = false := by
  have ht := toNat_lowerChar c
  unfold isAsciiUpper
  split at ht
  · rw [ht]
    have h90 : ¬(c.toNat + 32 ≤ 90) := by omega
    simp [h90]
  · next h =>
    rw [ht]
    by_cases h65 : 65 ≤ c.toNat
    · have h90 : ¬(c.toNat ≤ 90) := fun hc => h ⟨h65, hc⟩
      simp [h90]
    · simp [h65]

theorem goToLower_ne_empty (s : String) (h : s ≠ "") : goToLower s ≠ "" := by
  intro hcon
  apply h
  have hd : s.data.map lowerChar = [] := congrArg String.data hcon
  exact String.ext (List.map_eq_nil_iff.mp hd)

theorem goToLower_no_upper (s : String) :
    (goToLower s).data.any isAsciiUpper = false := by
  have hd : (goToLower s).data = s.data.map lowerChar := rfl
  rw [hd, List.any_map]
  simp [Function.comp, isAsciiUpper_lowerChar]

/-- Claim C10: the owner/repo filter is lowercased while repository names
are compared verbatim, so an event whose repository name contains an ASCII
uppercase letter is always skipped by a non-empty filter — the fetch loop
leaves the ledger unchanged for it — even when the filter differs from the
name only in letter case. -/
theorem c10_case_filter_skips (llm : Summarizer) (arg repoName : String)
    (w : work) (pay : Event) (h1 : arg ≠ "")
    (h2 : repoName.data.any isAsciiUpper = true) :
    loopBody llm (goToLower arg) w ⟨repoName, pay⟩ = w := by
  unfold loopBody
  rw [if_pos]
  refine ⟨goToLower_ne_empty arg h1, ?_⟩
  intro hcon
  have hcon2 : repoName = goToLower arg := hcon
  have hni : repoName.data.any isAsciiUpper = false := by
    rw [hcon2]; exact goToLower_no_upper arg
  rw [h2] at hni
  exact Bool.noConfusion hni

/-- Claim C10 (witness): a filter differing from the repository name only in
case never matches — the event is skipped and the ledger stays empty. -/
theorem c10_case_filter_skips_witness :
    loopBody (fun _ _ => none) (goToLower "Foo/Bar") (initWork "alice")
      ⟨"Foo/Bar", Event.otherEvent "PushEvent"⟩ = initWork "alice" :=
  c10_case_filter_skips (fun _ _ => none) "Foo/Bar" "Foo/Bar"
    (initWork "alice") (Event.otherEvent "PushEvent") (by decide) (by decide)

/-- Claim C2 (counterexample): the claim says `"this-week"` resolves to a
Monday at local midnight for every reference instant.  At the Tuesday
instant 2023-06-13 15:30 local (day 19521, second 55800) the code yields
Monday 2023-06-12 at 15:30 local — the time of day is kept, the result is
not midnight. -/
theorem c2_counterexample :
    pickDate "this-week" ⟨19521, 55800⟩ = .ok ⟨19520, 55800⟩ ∧
    (GoTime.mk 19520 55800).sod ≠ 0 := by
  constructor
  · rfl
  · decide

/-- Claim C2 (amended): for every reference instant `now`, `"this-week"`
resolves to a Monday carrying the same local time of day as `now` (not
necessarily midnight), at most `now` and less than 7 days before it
(Sunday wrapping 6 days back). -/
theorem c2_this_week_monday (now : GoTime) :
    ∃ t, pickDate "this-week" now = .ok t ∧ goWeekday t = 1 ∧
      t.sod = now.sod ∧ t.days ≤ now.days ∧ now.days - t.days < 7 := by
  refine ⟨addDateDays now (-(thisWeekOffset now)), rfl, ?_, rfl, ?_, ?_⟩
  · simp only [goWeekday, addDateDays, thisWeekOffset]
    split <;> omega
  · simp only [addDateDays, thisWeekOffset, goWeekday]
    split <;> omega
  · simp only [addDateDays, thisWeekOffset, goWeekday]
    split <;> omega

/-- Claim C3 (code bug, evaluated): on a Sunday — here local 2023-06-11
01:00, day 19519 since epoch — `"last-week"` resolves to exactly the same
instant as `"this-week"` (Monday 2023-06-05, day 19513), not to an instant
7 days earlier: the `"last-week"` branch misses the Sunday wrap that the
`"this-week"` branch applies. -/
theorem c3_sunday_bug :
    goWeekday ⟨19519, 3600⟩ = 0 ∧
    pickDate "last-week" ⟨19519, 3600⟩ = .ok ⟨19513, 3600⟩ ∧
    pickDate "this-week" ⟨19519, 3600⟩ = .ok ⟨19513, 3600⟩ := by
  refine ⟨by decide, rfl, ?_⟩
  show Except.ok (addDateDays _ _) = _
  simp only [addDateDays, thisWeekOffset, goWeekday]
  norm_num

/-- Claim C8: `pickDate` succeeds exactly on the seven recognized keywords;
every other argument string is rejected with an error. -/
theorem c8_pickDate_ok_iff (arg : String) (now : GoTime) :
    (∃ t, pickDate arg now = .ok t) ↔ arg ∈ recognizedKeywords := by
  unfold pickDate recognizedKeywords
  split_ifs with h1 h2 h3 h4 h5 h6 h7 <;> simp_all

end GHTC
